import Mathlib

/-!
Verification development for the AutoSentença pipeline client.

The definitions below are shallow embeddings of the TypeScript sources:

* `TaskStatus`, `Task`, `updateTaskStatus` — `src/client/src/app/page.tsx`
  lines 15–45 and the variant `src/unnamed/part_001` lines 15–47
  (both files declare the identical `updateTaskStatus`);
* `completedCount`, `totalCount`, `progressRatio`, `progressPercent`,
  `barWidth` — `src/client/src/components/StatusCard.tsx` lines 46–72;
* `Step`, `StageOutcome`, `defaultMsg`, `runSteps`, `runStepsTrace`,
  `invocationStates` — the `processWithAPI` loop of `src/unnamed/part_001`
  lines 93–135 (stage outcomes abstract the HTTP call: a successful
  response carries an optional `result.message`, a thrown error carries
  its `error.message` string);
* `simulateProcessingTrace`, `pageSteps`, `pageInitialTasks` — the
  `simulateProcessing` loop of `src/client/src/app/page.tsx` lines 47–66;
* `showResults` — the results-section gate of `src/unnamed/part_001`
  line 309 (`tasks.length > 0 && tasks.every(t => t.status === 'completed')
  && caseId`);
* `Role`, `UploadedFile`, `UZState`, `handleDrop`,
  `removeProcessoFile`, `removeAudienciaFile`, `applyEvent`, `runEvents`
  — `src/client/src/components/UploadZone.tsx` lines 235–275.
-/

namespace Sentencas

/-- `TaskStatus` from `StatusCard.tsx`:
`'pending' | 'running' | 'completed' | 'error'`. -/
inductive TaskStatus
  | pending
  | running
  | completed
  | error
deriving DecidableEq, Repr

/-- The `Task` interface: `{ id, name, status, message? }`. -/
structure Task where
  id : String
  name : String
  status : TaskStatus
  message : Option String
deriving DecidableEq, Repr

/-- The per-task update applied by `updateTaskStatus`'s `map` callback:
`task.id === taskId ? { ...task, status, message } : task`. -/
def updFun (taskId : String) (status : TaskStatus) (message : Option String)
    (task : Task) : Task :=
  if task.id = taskId then { task with status := status, message := message } else task

/-- `updateTaskStatus` from `page.tsx` / `part_001`:
`setTasks(prev => prev.map(task => task.id === taskId ? { ...task, status, message } : task))`.
The whole list is replaced in one state transition. -/
def updateTaskStatus (tasks : List Task) (taskId : String) (status : TaskStatus)
    (message : Option String) : List Task :=
  tasks.map (updFun taskId status message)

/-- `StatusCard.tsx` line 46: `tasks.filter(t => t.status === 'completed').length`. -/
def completedCount (tasks : List Task) : Nat :=
  (tasks.filter (fun t => t.status == TaskStatus.completed)).length

/-- `StatusCard.tsx` line 47: `tasks.length`. -/
def totalCount (tasks : List Task) : Nat :=
  tasks.length

/-- `StatusCard.tsx` line 48:
`totalTasks > 0 ? (completedTasks / totalTasks) * 100 : 0` (modelled in ℚ). -/
def progressRatio (tasks : List Task) : ℚ :=
  if 0 < totalCount tasks then
    ((completedCount tasks : ℚ) / (totalCount tasks : ℚ)) * 100
  else 0

/-- `StatusCard.tsx` line 72: the displayed percentage `Math.round(progress)`. -/
def progressPercent (tasks : List Task) : ℤ :=
  round (progressRatio tasks)

/-- `StatusCard.tsx` line 67: the bar width `Math.min(100, Math.max(0, progress))`. -/
def barWidth (tasks : List Task) : ℚ :=
  min 100 (max 0 (progressRatio tasks))

/-- A pipeline step of `processWithAPI`: `{ id, name, endpoint }`
(the endpoint string plays no role in the state evolution). -/
structure Step where
  id : String
  name : String
deriving DecidableEq, Repr

/-- Observable outcome of one stage's HTTP call in `processWithAPI`:
either the parsed JSON succeeds (with `result.message` possibly absent),
or an error is thrown whose `error.message` is the failure reason. -/
inductive StageOutcome
  | ok (message : Option String)
  | fail (reason : String)
deriving DecidableEq, Repr

/-- The success message computed by `result.message || 'Concluído'`:
JavaScript `||` falls through to the default when `message` is absent
(`undefined`/`null`) **or** the empty string (both falsy). -/
def defaultMsg (m : Option String) : String :=
  match m with
  | none => "Concluído"
  | some s => if s = "" then "Concluído" else s

/-- The mutable state `processWithAPI` drives: the `tasks` array and the
`currentStep` label. -/
structure PipelineState where
  tasks : List Task
  currentStep : String
deriving DecidableEq, Repr

/-- Result of a run of `processWithAPI`: either the loop completes, or the
caught error is rethrown to the caller carrying its reason string. -/
inductive RunResult
  | success
  | aborted (reason : String)
deriving DecidableEq, Repr

/-- Label set after the loop: `setCurrentStep('Sentença gerada com sucesso! 🎉')`. -/
def finalLabel : String := "Sentença gerada com sucesso! 🎉"

/-- The `for (const step of steps)` loop of `processWithAPI` (`part_001`
lines 102–135), one list element per stage paired with its outcome:
`setCurrentStep(step.name)`; `updateTaskStatus(step.id,'running',step.name)`;
on success `updateTaskStatus(step.id,'completed', result.message || 'Concluído')`
and continue; on error `updateTaskStatus(step.id,'error', 'Erro: ' + error.message)`
and rethrow (aborting the loop). -/
def runSteps : PipelineState → List (Step × StageOutcome) → PipelineState × RunResult
  | s, [] => ({ s with currentStep := finalLabel }, .success)
  | s, (st, o) :: rest =>
    let sRun : PipelineState :=
      { tasks := updateTaskStatus s.tasks st.id .running (some st.name),
        currentStep := st.name }
    match o with
    | .ok m =>
        runSteps
          { sRun with
            tasks := updateTaskStatus sRun.tasks st.id .completed (some (defaultMsg m)) }
          rest
    | .fail r =>
        ({ sRun with
           tasks := updateTaskStatus sRun.tasks st.id .error (some ("Erro: " ++ r)) },
         .aborted r)

/-- The successive states produced by `processWithAPI`'s mutations, in
temporal order: after `setCurrentStep`, after the `running` update, after
the outcome (`completed`/`error`) update, then the following stages. -/
def runStepsTrace : PipelineState → List (Step × StageOutcome) → List PipelineState
  | s, [] => [{ s with currentStep := finalLabel }]
  | s, (st, o) :: rest =>
    let sLabel : PipelineState := { s with currentStep := st.name }
    let sRun : PipelineState :=
      { sLabel with tasks := updateTaskStatus sLabel.tasks st.id .running (some st.name) }
    match o with
    | .ok m =>
        let sDone : PipelineState :=
          { sRun with
            tasks := updateTaskStatus sRun.tasks st.id .completed (some (defaultMsg m)) }
        sLabel :: sRun :: sDone :: runStepsTrace sDone rest
    | .fail r =>
        [sLabel, sRun,
         { sRun with
           tasks := updateTaskStatus sRun.tasks st.id .error (some ("Erro: " ++ r)) }]

/-- For each stage whose operation is actually invoked, the state in force
at the moment of the `fetch` call: label and `running` status already set,
the stage's outcome not yet recorded. -/
def invocationStates : PipelineState → List (Step × StageOutcome) → List (Step × PipelineState)
  | _, [] => []
  | s, (st, o) :: rest =>
    let sRun : PipelineState :=
      { tasks := updateTaskStatus s.tasks st.id .running (some st.name),
        currentStep := st.name }
    match o with
    | .ok m =>
        (st, sRun) ::
          invocationStates
            { sRun with
              tasks := updateTaskStatus sRun.tasks st.id .completed (some (defaultMsg m)) }
            rest
    | .fail _ => [(st, sRun)]

/-- The `steps` array of `processWithAPI` (`part_001` lines 96–100). -/
def part1Steps : List Step :=
  [⟨"1", "Transcrevendo áudio..."⟩,
   ⟨"2", "Processando com Gemini..."⟩,
   ⟨"3", "Gerando sentença com Claude..."⟩]

/-- `initializeTasks` of `part_001` lines 31–39. -/
def part1InitialTasks : List Task :=
  [⟨"0", "Upload de arquivos", .pending, none⟩,
   ⟨"1", "Transcrição de áudio", .pending, none⟩,
   ⟨"2", "Processamento com Gemini", .pending, none⟩,
   ⟨"3", "Geração da sentença", .pending, none⟩]

/-- The state of `part_001`'s `handleProcess` at the moment `processWithAPI`
is entered: task `"0"` has gone `running` then `completed` with the
upload confirmation, tasks `"1"`–`"3"` are still pending. -/
def afterUploadState (caseId : String) : PipelineState :=
  { tasks := updateTaskStatus
      (updateTaskStatus part1InitialTasks "0" .running (some "Upload em andamento..."))
      "0" .completed (some ("Arquivos enviados! Case ID: " ++ caseId)),
    currentStep := "Fazendo upload e iniciando processamento automático..." }

/-- `initializeTasks` of `page.tsx` lines 28–37. -/
def pageInitialTasks : List Task :=
  [⟨"1", "Análise de documentos", .pending, none⟩,
   ⟨"2", "Transcrição de áudio", .pending, none⟩,
   ⟨"3", "Extração de informações", .pending, none⟩,
   ⟨"4", "Consulta de jurisprudência", .pending, none⟩,
   ⟨"5", "Geração da sentença", .pending, none⟩]

/-- The `steps` array of `simulateProcessing` (`page.tsx` lines 48–54). -/
def pageSteps : List Step :=
  [⟨"1", "Analisando documentos..."⟩,
   ⟨"2", "Transcrevendo áudio..."⟩,
   ⟨"3", "Extraindo informações..."⟩,
   ⟨"4", "Consultando jurisprudência..."⟩,
   ⟨"5", "Gerando sentença..."⟩]

/-- The state trace of `simulateProcessing` (`page.tsx` lines 47–66):
every step succeeds, each task getting `running` with the step name and
then `completed` with the literal `'Concluído'`. -/
def simulateProcessingTrace : PipelineState → List Step → List PipelineState
  | s, [] => [{ s with currentStep := finalLabel }]
  | s, st :: rest =>
    let sLabel : PipelineState := { s with currentStep := st.name }
    let sRun : PipelineState :=
      { sLabel with tasks := updateTaskStatus sLabel.tasks st.id .running (some st.name) }
    let sDone : PipelineState :=
      { sRun with tasks := updateTaskStatus sRun.tasks st.id .completed (some "Concluído") }
    sLabel :: sRun :: sDone :: simulateProcessingTrace sDone rest

/-- Initial state of `page.tsx`'s `Home`: tasks just initialized, empty label. -/
def pageInitialState : PipelineState :=
  { tasks := pageInitialTasks, currentStep := "" }

/-- The results-section gate of `part_001` line 309:
`tasks.length > 0 && tasks.every(t => t.status === 'completed') && caseId`
(a string is truthy iff nonempty). -/
def showResults (tasks : List Task) (caseId : String) : Bool :=
  decide (0 < tasks.length) &&
    tasks.all (fun t => t.status == TaskStatus.completed) &&
    (caseId != "")

/-- File roles of `UploadZone.tsx`: `'processo' | 'audiencia'`. -/
inductive Role
  | processo
  | audiencia
deriving DecidableEq, Repr

/-- `UploadedFile`: `{ file, type, id }` (the `File` object is opaque and
modelled by its name). -/
structure UploadedFile where
  file : String
  type : Role
  id : String
deriving DecidableEq, Repr

/-- The state of the `UploadZone` component: the `processoFile` and
`audienciaFile` `useState` cells. -/
structure UZState where
  processoFile : Option UploadedFile
  audienciaFile : Option UploadedFile
deriving DecidableEq, Repr

/-- The opposite role. -/
def otherRole : Role → Role
  | .processo => .audiencia
  | .audiencia => .processo

/-- The retained file of a given role. -/
def slot (s : UZState) : Role → Option UploadedFile
  | .processo => s.processoFile
  | .audiencia => s.audienciaFile

/-- `handleDrop` of `UploadZone.tsx` lines 239–263: build the new
`UploadedFile`, store it in the slot of its role, and emit the combined
list passed to `onFilesChange` (`[newFile, audiencia?]` for a `processo`
drop, `[processo?, newFile]` for an `audiencia` drop). -/
def handleDrop (s : UZState) (f : String) (r : Role) (newId : String) :
    UZState × List UploadedFile :=
  let newFile : UploadedFile := ⟨f, r, newId⟩
  match r with
  | .processo =>
      ({ s with processoFile := some newFile }, newFile :: s.audienciaFile.toList)
  | .audiencia =>
      ({ s with audienciaFile := some newFile }, s.processoFile.toList ++ [newFile])

/-- `removeProcessoFile` of `UploadZone.tsx` lines 265–269. -/
def removeProcessoFile (s : UZState) : UZState × List UploadedFile :=
  ({ s with processoFile := none }, s.audienciaFile.toList)

/-- `removeAudienciaFile` of `UploadZone.tsx` lines 271–275. -/
def removeAudienciaFile (s : UZState) : UZState × List UploadedFile :=
  ({ s with audienciaFile := none }, s.processoFile.toList)

/-- The user-driven events `UploadZone` reacts to. -/
inductive UZEvent
  | drop (file : String) (role : Role) (newId : String)
  | removeProcesso
  | removeAudiencia
deriving DecidableEq, Repr

/-- Apply one event, returning the new state and the list emitted to
`onFilesChange`. -/
def applyEvent (s : UZState) : UZEvent → UZState × List UploadedFile
  | .drop f r nid => handleDrop s f r nid
  | .removeProcesso => removeProcessoFile s
  | .removeAudiencia => removeAudienciaFile s

/-- The component's initial state: both slots empty. -/
def initUZ : UZState := ⟨none, none⟩

/-- Run a sequence of upload-zone events. -/
def runEvents (s : UZState) (es : List UZEvent) : UZState :=
  es.foldl (fun s e => (applyEvent s e).1) s

/-- Each slot holds only a file of its own role. -/
def roleOk (s : UZState) : Bool :=
  s.processoFile.all (fun u => u.type == Role.processo) &&
    s.audienciaFile.all (fun u => u.type == Role.audiencia)

/-- The per-task effect of running a list of all-succeeding stages
(each stage as `(step, result.message)`): the task of the first stage
whose id matches ends `completed` with the defaulted message; tasks
matching no stage are untouched. -/
def expectedOk (l : List (Step × Option String)) (t : Task) : Task :=
  match l.find? (fun p => p.1.id == t.id) with
  | some p => { t with status := .completed, message := some (defaultMsg p.2) }
  | none => t

/-- The per-task effect of a run whose stages `pre` all succeed and whose
next stage `stF` fails with reason `r`: the failing stage's task ends
`error` with the prefixed reason, earlier stages' tasks end `completed`,
and all other tasks — in particular those of never-invoked later stages —
are untouched. -/
def expectedFail (pre : List (Step × Option String)) (stF : Step) (r : String)
    (t : Task) : Task :=
  if t.id = stF.id then { t with status := .error, message := some ("Erro: " ++ r) }
  else expectedOk pre t

/-- Inject an all-success stage list into the runner's input. -/
def toOkList (l : List (Step × Option String)) : List (Step × StageOutcome) :=
  l.map (fun p => (p.1, StageOutcome.ok p.2))

/-! ### Helper lemmas about `updateTaskStatus` -/

theorem updFun_id (taskId : String) (st : TaskStatus) (m : Option String) (t : Task) :
    (updFun taskId st m t).id = t.id := by
  unfold updFun; split <;> rfl

theorem updFun_name (taskId : String) (st : TaskStatus) (m : Option String) (t : Task) :
    (updFun taskId st m t).name = t.name := by
  unfold updFun; split <;> rfl

theorem updFun_of_ne (taskId : String) (st : TaskStatus) (m : Option String) (t : Task)
    (h : t.id ≠ taskId) : updFun taskId st m t = t := by
  unfold updFun; simp [h]

theorem updFun_of_eq (taskId : String) (st : TaskStatus) (m : Option String) (t : Task)
    (h : t.id = taskId) :
    updFun taskId st m t = { t with status := st, message := m } := by
  unfold updFun; simp [h]

theorem updFun_updFun_same (taskId : String) (st₁ st₂ : TaskStatus)
    (m₁ m₂ : Option String) (t : Task) :
    updFun taskId st₂ m₂ (updFun taskId st₁ m₁ t) = updFun taskId st₂ m₂ t := by
  unfold updFun
  by_cases h : t.id = taskId <;> simp [h]

theorem updateTaskStatus_length (tasks : List Task) (taskId : String) (st : TaskStatus)
    (m : Option String) :
    (updateTaskStatus tasks taskId st m).length = tasks.length := by
  simp [updateTaskStatus]

theorem updateTaskStatus_getElem? (tasks : List Task) (taskId : String) (st : TaskStatus)
    (m : Option String) (i : Nat) :
    (updateTaskStatus tasks taskId st m)[i]? = (tasks[i]?).map (updFun taskId st m) := by
  simp [updateTaskStatus]

theorem updateTaskStatus_same_id (tasks : List Task) (taskId : String)
    (st₁ st₂ : TaskStatus) (m₁ m₂ : Option String) :
    updateTaskStatus (updateTaskStatus tasks taskId st₁ m₁) taskId st₂ m₂ =
      updateTaskStatus tasks taskId st₂ m₂ := by
  simp only [updateTaskStatus, List.map_map]
  exact List.map_congr_left fun t _ => updFun_updFun_same ..

theorem status_of_mem_update (tasks : List Task) (taskId : String) (st : TaskStatus)
    (m : Option String) :
    ∀ t ∈ updateTaskStatus tasks taskId st m, t.id = taskId → t.status = st := by
  intro t ht hid
  simp only [updateTaskStatus, List.mem_map] at ht
  obtain ⟨t₀, _, rfl⟩ := ht
  by_cases h : t₀.id = taskId
  · rw [updFun_of_eq _ _ _ _ h]
  · rw [updFun_of_ne _ _ _ _ h] at hid ⊢
    exact absurd hid h

/-! ### Helper lemmas about the progress aggregation -/

theorem filter_map_length_eq {α : Type} (f : α → α) (p : α → Bool) (l : List α)
    (h : ∀ a ∈ l, p (f a) = p a) :
    ((l.map f).filter p).length = (l.filter p).length := by
  induction l with
  | nil => rfl
  | cons a l ih =>
    have ha := h a (List.mem_cons_self a l)
    have hl := ih fun x hx => h x (List.mem_cons_of_mem _ hx)
    simp only [List.map_cons, List.filter_cons, ha]
    cases p a <;> simp [hl]

theorem filter_map_length_ge {α : Type} (f : α → α) (p : α → Bool) (l : List α)
    (h : ∀ a ∈ l, p a = true → p (f a) = true) :
    (l.filter p).length ≤ ((l.map f).filter p).length := by
  induction l with
  | nil => exact Nat.le_refl _
  | cons a l ih =>
    have ha := h a (List.mem_cons_self a l)
    have hl := ih fun x hx => h x (List.mem_cons_of_mem _ hx)
    simp only [List.map_cons, List.filter_cons]
    cases hpa : p a with
    | false => cases p (f a) <;> simp [hl] <;> omega
    | true => simp [ha hpa, hl]

theorem completedCount_update_of_ne (tasks : List Task) (taskId : String)
    (st : TaskStatus) (m : Option String) (hst : st ≠ .completed)
    (h : ∀ t ∈ tasks, t.id = taskId → t.status ≠ .completed) :
    completedCount (updateTaskStatus tasks taskId st m) = completedCount tasks := by
  unfold completedCount updateTaskStatus
  apply filter_map_length_eq
  intro t ht
  by_cases hid : t.id = taskId
  · rw [updFun_of_eq _ _ _ _ hid]
    have h1 : (st == TaskStatus.completed) = false := by
      cases st <;> simp_all
    have h2 : (t.status == TaskStatus.completed) = false := by
      have := h t ht hid
      cases hts : t.status <;> simp_all
    simpa [h1] using h2.symm
  · rw [updFun_of_ne _ _ _ _ hid]

theorem completedCount_update_completed_ge (tasks : List Task) (taskId : String)
    (m : Option String) :
    completedCount tasks ≤
      completedCount (updateTaskStatus tasks taskId .completed m) := by
  unfold completedCount updateTaskStatus
  apply filter_map_length_ge
  intro t _ hp
  by_cases hid : t.id = taskId
  · rw [updFun_of_eq _ _ _ _ hid]; rfl
  · rw [updFun_of_ne _ _ _ _ hid]; exact hp

theorem completedCount_le_length (tasks : List Task) :
    completedCount tasks ≤ tasks.length :=
  List.length_filter_le _ _

theorem progressRatio_nonneg (tasks : List Task) : 0 ≤ progressRatio tasks := by
  unfold progressRatio
  split
  · positivity
  · exact le_refl 0

theorem progressRatio_le_100 (tasks : List Task) : progressRatio tasks ≤ 100 := by
  unfold progressRatio
  split
  · rename_i h
    have hc : (completedCount tasks : ℚ) ≤ (totalCount tasks : ℚ) := by
      exact_mod_cast completedCount_le_length tasks
    have ht : (0 : ℚ) < (totalCount tasks : ℚ) := by exact_mod_cast h
    have : (completedCount tasks : ℚ) / (totalCount tasks : ℚ) ≤ 1 :=
      (div_le_one ht).mpr hc
    nlinarith
  · norm_num

theorem progressPercent_mono (ts₁ ts₂ : List Task)
    (hlen : ts₁.length = ts₂.length)
    (hc : completedCount ts₁ ≤ completedCount ts₂) :
    progressPercent ts₁ ≤ progressPercent ts₂ := by
  unfold progressPercent
  rw [round_eq, round_eq]
  apply Int.floor_le_floor
  apply add_le_add_right
  unfold progressRatio totalCount
  rw [hlen]
  split
  · rename_i h
    have ht : (0 : ℚ) < (ts₂.length : ℚ) := by exact_mod_cast h
    have hcq : (completedCount ts₁ : ℚ) ≤ (completedCount ts₂ : ℚ) := by exact_mod_cast hc
    gcongr
  · exact le_refl 0

theorem progressPercent_nonneg (tasks : List Task) : 0 ≤ progressPercent tasks := by
  unfold progressPercent
  rw [round_eq]
  have h := progressRatio_nonneg tasks
  have : (0 : ℤ) = ⌊(0 : ℚ) + 1 / 2⌋ := by norm_num
  rw [this]
  exact Int.floor_le_floor (by linarith)

theorem progressPercent_le_100 (tasks : List Task) : progressPercent tasks ≤ 100 := by
  unfold progressPercent
  rw [round_eq]
  have h := progressRatio_le_100 tasks
  have : (100 : ℤ) = ⌊(100 : ℚ) + 1 / 2⌋ := by norm_num
  rw [this]
  exact Int.floor_le_floor (by linarith)

/-! ### Characterization of `runSteps` -/

theorem runSteps_nil (s : PipelineState) :
    runSteps s [] = ({ s with currentStep := finalLabel }, .success) := rfl

theorem runSteps_ok_cons (s : PipelineState) (st : Step) (m : Option String)
    (rest : List (Step × StageOutcome)) :
    runSteps s ((st, .ok m) :: rest) =
      runSteps
        ⟨updateTaskStatus s.tasks st.id .completed (some (defaultMsg m)), st.name⟩
        rest := by
  simp only [runSteps, updateTaskStatus_same_id]

theorem runSteps_fail_cons (s : PipelineState) (st : Step) (r : String)
    (rest : List (Step × StageOutcome)) :
    runSteps s ((st, .fail r) :: rest) =
      (⟨updateTaskStatus s.tasks st.id .error (some ("Erro: " ++ r)), st.name⟩,
       .aborted r) := by
  simp only [runSteps, updateTaskStatus_same_id]

theorem find?_id_eq_none (l : List (Step × Option String)) (i : String)
    (h : i ∉ l.map (fun p => p.1.id)) :
    l.find? (fun p => p.1.id == i) = none := by
  rw [List.find?_eq_none]
  intro x hx hpx
  exact h (List.mem_map.mpr ⟨x, hx, by simpa using hpx⟩)

theorem expectedOk_nil (t : Task) : expectedOk [] t = t := rfl

theorem runSteps_toOk (l : List (Step × Option String)) :
    ∀ (tasks₀ : List Task) (cs : String),
    (l.map (fun p => p.1.id)).Nodup →
    runSteps ⟨tasks₀, cs⟩ (toOkList l) =
      (⟨tasks₀.map (expectedOk l), finalLabel⟩, .success) := by
  induction l with
  | nil =>
    intro tasks₀ cs _
    have hmap : tasks₀.map (expectedOk []) = tasks₀ := by
      have h : ∀ t ∈ tasks₀, expectedOk [] t = id t := fun t _ => rfl
      rw [List.map_congr_left h, List.map_id]
    simp [toOkList, runSteps, hmap]
  | cons p l ih =>
    intro tasks₀ cs hnd
    obtain ⟨st₀, m₀⟩ := p
    rw [List.map_cons, List.nodup_cons] at hnd
    obtain ⟨h₁, h₂⟩ := hnd
    show runSteps ⟨tasks₀, cs⟩ ((st₀, .ok m₀) :: toOkList l) = _
    rw [runSteps_ok_cons, ih _ _ h₂]
    refine congrArg
      (fun x : List Task =>
        (({ tasks := x, currentStep := finalLabel } : PipelineState),
         RunResult.success)) ?_
    simp only [updateTaskStatus, List.map_map]
    apply List.map_congr_left
    intro t _
    by_cases hid : t.id = st₀.id
    · have hmod : updFun st₀.id .completed (some (defaultMsg m₀)) t =
        { t with status := .completed, message := some (defaultMsg m₀) } :=
        updFun_of_eq _ _ _ _ hid
      simp only [Function.comp_apply, hmod, expectedOk]
      rw [find?_id_eq_none l t.id (hid ▸ h₁), List.find?_cons_of_pos _ (by simpa using hid.symm)]
    · have hmod : updFun st₀.id .completed (some (defaultMsg m₀)) t = t :=
        updFun_of_ne _ _ _ _ hid
      simp only [Function.comp_apply, hmod, expectedOk]
      rw [List.find?_cons_of_neg _ (by simpa using fun h => hid h.symm)]

theorem runSteps_fail_after (pre : List (Step × Option String)) :
    ∀ (tasks₀ : List Task) (cs : String) (stF : Step) (r : String)
      (post : List (Step × StageOutcome)),
    ((pre.map (fun p => p.1.id)) ++ [stF.id]).Nodup →
    runSteps ⟨tasks₀, cs⟩ (toOkList pre ++ (stF, .fail r) :: post) =
      (⟨tasks₀.map (expectedFail pre stF r), stF.name⟩, .aborted r) := by
  induction pre with
  | nil =>
    intro tasks₀ cs stF r post _
    show runSteps ⟨tasks₀, cs⟩ ((stF, .fail r) :: post) = _
    rw [runSteps_fail_cons]
    refine congrArg
      (fun x : List Task =>
        (({ tasks := x, currentStep := stF.name } : PipelineState),
         RunResult.aborted r)) ?_
    apply List.map_congr_left
    intro t _
    by_cases hid : t.id = stF.id
    · rw [updFun_of_eq _ _ _ _ hid]
      simp [expectedFail, hid]
    · rw [updFun_of_ne _ _ _ _ hid]
      simp [expectedFail, hid, expectedOk_nil]
  | cons p pre ih =>
    intro tasks₀ cs stF r post hnd
    obtain ⟨st₀, m₀⟩ := p
    rw [List.map_cons, List.cons_append, List.nodup_cons] at hnd
    obtain ⟨h₁, h₂⟩ := hnd
    have hst₀pre : st₀.id ∉ pre.map (fun p => p.1.id) :=
      fun h => h₁ (List.mem_append_left _ h)
    have hst₀F : st₀.id ≠ stF.id := by
      intro h
      exact h₁ (List.mem_append_right _ (by simp [h]))
    show runSteps ⟨tasks₀, cs⟩
        ((st₀, .ok m₀) :: (toOkList pre ++ (stF, .fail r) :: post)) = _
    rw [runSteps_ok_cons, ih _ _ _ _ _ h₂]
    refine congrArg
      (fun x : List Task =>
        (({ tasks := x, currentStep := stF.name } : PipelineState),
         RunResult.aborted r)) ?_
    simp only [updateTaskStatus, List.map_map]
    apply List.map_congr_left
    intro t _
    by_cases hid : t.id = st₀.id
    · have hmod : updFun st₀.id .completed (some (defaultMsg m₀)) t =
        { t with status := .completed, message := some (defaultMsg m₀) } :=
        updFun_of_eq _ _ _ _ hid
      have hne : t.id ≠ stF.id := hid ▸ hst₀F
      simp only [Function.comp_apply, hmod, expectedFail, expectedOk]
      rw [if_neg (by simpa using hne), if_neg hne,
        find?_id_eq_none pre t.id (hid ▸ hst₀pre),
        List.find?_cons_of_pos _ (by simpa using hid.symm)]
    · have hmod : updFun st₀.id .completed (some (defaultMsg m₀)) t = t :=
        updFun_of_ne _ _ _ _ hid
      simp only [Function.comp_apply, hmod, expectedFail, expectedOk]
      rw [List.find?_cons_of_neg _ (by simpa using fun h => hid h.symm)]

/-! ### Monotonicity of the percentage along a run's trace -/

theorem trace_mono (l : List (Step × StageOutcome)) :
    ∀ (s : PipelineState),
    (l.map (fun p => p.1.id)).Nodup →
    (∀ t ∈ s.tasks, t.id ∈ l.map (fun p => p.1.id) → t.status ≠ .completed) →
    List.Chain' (fun a b => progressPercent a.tasks ≤ progressPercent b.tasks)
      (s :: runStepsTrace s l) := by
  induction l with
  | nil =>
    intro s _ _
    simp [runStepsTrace]
  | cons p l ih =>
    intro s hnd hinv
    obtain ⟨st₀, o⟩ := p
    rw [List.map_cons, List.nodup_cons] at hnd
    obtain ⟨h₁, h₂⟩ := hnd
    have hcur : ∀ t ∈ s.tasks, t.id = st₀.id → t.status ≠ .completed :=
      fun t ht hid => hinv t ht (by simp [hid])
    have hrun_le :
        progressPercent s.tasks ≤
          progressPercent (updateTaskStatus s.tasks st₀.id .running (some st₀.name)) := by
      apply progressPercent_mono
      · exact (updateTaskStatus_length ..).symm
      · exact le_of_eq (completedCount_update_of_ne _ _ _ _ (by simp) hcur).symm
    cases o with
    | ok m =>
      simp only [runStepsTrace]
      rw [List.chain'_cons, List.chain'_cons, List.chain'_cons]
      refine ⟨le_refl _, hrun_le, ?_, ?_⟩
      · apply progressPercent_mono
        · exact (updateTaskStatus_length ..).symm
        · exact completedCount_update_completed_ge ..
      · rw [updateTaskStatus_same_id]
        apply ih
        · exact h₂
        · intro t ht hmem
          simp only [updateTaskStatus, List.mem_map] at ht
          obtain ⟨t₀, ht₀, rfl⟩ := ht
          by_cases hid : t₀.id = st₀.id
          · rw [updFun_of_eq _ _ _ _ hid, ] at hmem ⊢
            exact absurd (hid ▸ hmem) h₁
          · rw [updFun_of_ne _ _ _ _ hid] at hmem ⊢
            exact hinv t₀ ht₀ (by simp [hmem])
    | fail r =>
      simp only [runStepsTrace]
      rw [List.chain'_cons, List.chain'_cons, List.chain'_cons]
      refine ⟨le_refl _, hrun_le, ?_, List.chain'_singleton _⟩
      apply progressPercent_mono
      · exact (updateTaskStatus_length ..).symm
      · refine le_of_eq (completedCount_update_of_ne _ _ _ _ (by simp) ?_).symm
        intro t ht hid
        rw [status_of_mem_update _ _ _ _ t ht hid]
        simp

/-! ### The invocation-time state of each executed stage -/

theorem invocation_label (l : List (Step × StageOutcome)) :
    ∀ (s : PipelineState) (st : Step) (σ : PipelineState),
    (st, σ) ∈ invocationStates s l →
    σ.currentStep = st.name ∧
    (∀ t ∈ σ.tasks, t.id = st.id → t.status = .running) ∧
    σ ∈ s :: runStepsTrace s l := by
  induction l with
  | nil =>
    intro s st σ h
    simp [invocationStates] at h
  | cons p l ih =>
    intro s st σ h
    obtain ⟨st₀, o⟩ := p
    cases o with
    | ok m =>
      simp only [invocationStates, List.mem_cons] at h
      rcases h with heq | hmem
      · obtain ⟨h₁, h₂⟩ := Prod.mk.injEq .. ▸ heq
        subst h₁
        rw [h₂]
        refine ⟨rfl, ?_, ?_⟩
        · exact fun t ht hid => status_of_mem_update _ _ _ _ t ht hid
        · simp [runStepsTrace, List.mem_cons]
      · obtain ⟨ha, hb, hc⟩ := ih _ st σ hmem
        refine ⟨ha, hb, ?_⟩
        rcases List.mem_cons.mp hc with hσ | hσ
        · simp [runStepsTrace, List.mem_cons, hσ]
        · simp only [runStepsTrace, List.mem_cons]
          right; right; right
          rcases List.mem_cons.mp (List.mem_cons.mpr (Or.inr hσ)) with h' | h'
          · exact Or.inl h'
          · exact Or.inr (by simpa using hσ)
    | fail r =>
      simp only [invocationStates, List.mem_cons] at h
      rcases h with heq | hmem
      · obtain ⟨h₁, h₂⟩ := Prod.mk.injEq .. ▸ heq
        subst h₁
        rw [h₂]
        refine ⟨rfl, ?_, ?_⟩
        · exact fun t ht hid => status_of_mem_update _ _ _ _ t ht hid
        · simp [runStepsTrace, List.mem_cons]
      · simp at hmem

/-! ### Claim theorems -/

/-- C1, counterexample: the claim says a status change that is not
forward-reachable fails with an `InvalidTransition` error. In the code the
status-update operation is total and unconditional: applied to a task in
the terminal state `completed` with new status `pending`, it succeeds and
yields the task with status `pending` — the task leaves its terminal
state and no error of any kind is raised. -/
theorem update_no_guard_cex :
    (([⟨"1", "x", .completed, some "done"⟩] : List Task).getD 0
        ⟨"", "", .pending, none⟩).status = TaskStatus.completed ∧
    updateTaskStatus [⟨"1", "x", .completed, some "done"⟩] "1" .pending none =
      [⟨"1", "x", .pending, none⟩] := by
  decide

/-- C1, amended: the status-update operation enforces nothing: for every
task list, id, new status and message, the matching task's status and
message are replaced by the given values unconditionally — in particular
even when the task currently is in a terminal state (`completed` or
`error`), so no transition ever fails and there is no `InvalidTransition`
error in the code. -/
theorem update_unvalidated (tasks : List Task) (taskId : String) (st : TaskStatus)
    (m : Option String) (i : Nat) (t : Task) (hi : tasks[i]? = some t)
    (hterm : t.status = .completed ∨ t.status = .error) (hid : t.id = taskId) :
    (updateTaskStatus tasks taskId st m)[i]? =
      some { t with status := st, message := m } := by
  rw [updateTaskStatus_getElem?, hi, Option.map_some', updFun_of_eq _ _ _ _ hid]

/-- Witness for `update_unvalidated`: a concrete one-task list in terminal
state `completed`, moved back to `pending`. -/
theorem update_unvalidated_witness :
    (updateTaskStatus [⟨"1", "x", .completed, some "done"⟩] "1" .pending none)[0]? =
      some { id := "1", name := "x", status := TaskStatus.pending,
             message := (none : Option String) } :=
  update_unvalidated [⟨"1", "x", .completed, some "done"⟩] "1" .pending none 0
    ⟨"1", "x", .completed, some "done"⟩ (by decide) (Or.inl rfl) rfl

/-- C3: the progress aggregation counts exactly the `completed` tasks
(a task in status `error` adds to `totalCount` but not to
`completedCount`), `totalCount` is the list length, and the displayed
percentage equals `round(100 * completedCount / totalCount)` clamped to
`[0, 100]`, with `0` when `totalCount = 0` (the clamp never bites because
`completedCount ≤ totalCount`). -/
theorem progress_aggregation_correct (tasks : List Task) (i n : String)
    (msg : Option String) :
    totalCount tasks = tasks.length ∧
    completedCount (tasks ++ [⟨i, n, .error, msg⟩]) = completedCount tasks ∧
    totalCount (tasks ++ [⟨i, n, .error, msg⟩]) = totalCount tasks + 1 ∧
    progressPercent tasks =
      (if totalCount tasks = 0 then 0
       else max 0 (min 100
         (round ((100 * (completedCount tasks : ℚ)) / (totalCount tasks : ℚ))))) := by
  refine ⟨rfl, ?_, by simp [totalCount], ?_⟩
  · simp [completedCount]
  · by_cases h : totalCount tasks = 0
    · rw [if_pos h]
      unfold progressPercent progressRatio
      rw [if_neg (by omega)]
      simp
    · rw [if_neg h]
      have hratio : (100 * (completedCount tasks : ℚ)) / (totalCount tasks : ℚ) =
          progressRatio tasks := by
        unfold progressRatio
        rw [if_pos (by omega)]
        rw [div_mul_eq_mul_div, mul_comm]
      rw [hratio]
      have h0 := progressPercent_nonneg tasks
      have h100 := progressPercent_le_100 tasks
      unfold progressPercent at *
      rw [min_eq_right h100, max_eq_right h0]

/-- C8: a status update is atomic over `(status, message)`: the new task
list is produced in one transition in which the matching task has both
its status and its message replaced together, and every task whose id
differs from the given id is left exactly as it was (position and all
other fields included). -/
theorem update_atomic (tasks : List Task) (taskId : String) (st : TaskStatus)
    (m : Option String) (i : Nat) :
    (updateTaskStatus tasks taskId st m).length = tasks.length ∧
    (updateTaskStatus tasks taskId st m)[i]? =
      (tasks[i]?).map (fun t =>
        if t.id = taskId then { t with status := st, message := m } else t) := by
  refine ⟨updateTaskStatus_length .., ?_⟩
  rw [updateTaskStatus_getElem?]
  rfl

/-- C9: the results section (artifact view/download) of `Home` is rendered
only when its gate holds, and the gate forces: every task `completed`
(hence in particular the terminal stage's task), a nonempty task list,
and an assigned case identifier. -/
theorem artifact_gate (tasks : List Task) (caseId : String)
    (h : showResults tasks caseId = true) :
    (∀ t ∈ tasks, t.status = .completed) ∧ caseId ≠ "" ∧ tasks ≠ [] ∧
    ∃ tLast, tasks.getLast? = some tLast ∧ tLast.status = .completed := by
  unfold showResults at h
  simp only [Bool.and_eq_true, decide_eq_true_eq, List.all_eq_true,
    bne_iff_ne, ne_eq] at h
  obtain ⟨⟨hlen, hall⟩, hcid⟩ := h
  have hne : tasks ≠ [] := by
    intro h0
    subst h0
    simp at hlen
  have hall' : ∀ t ∈ tasks, t.status = .completed := by
    intro t ht
    have := hall t ht
    simpa using this
  refine ⟨hall', hcid, hne, ?_⟩
  cases hLast : tasks.getLast? with
  | none => exact absurd (List.getLast?_eq_none_iff.mp hLast) hne
  | some tLast =>
      have hx : tLast ∈ tasks.getLast? := by simp [hLast]
      obtain ⟨hne', heq⟩ := List.mem_getLast?_eq_getLast hx
      refine ⟨tLast, rfl, hall' tLast ?_⟩
      rw [heq]
      exact List.getLast_mem hne'

/-- Witness for `artifact_gate`: a one-task completed list with assigned
case id. -/
theorem artifact_gate_witness :
    showResults [⟨"1", "x", .completed, some "ok"⟩] "case-42" = true ∧
    ((∀ t ∈ ([⟨"1", "x", .completed, some "ok"⟩] : List Task),
        t.status = .completed) ∧ "case-42" ≠ "" ∧
      ([⟨"1", "x", .completed, some "ok"⟩] : List Task) ≠ [] ∧
      ∃ tLast, ([⟨"1", "x", .completed, some "ok"⟩] : List Task).getLast? = some tLast ∧
        tLast.status = .completed) :=
  ⟨by decide, artifact_gate [⟨"1", "x", .completed, some "ok"⟩] "case-42" (by decide)⟩

/-- C10: calling the status update without a message does not preserve the
previous message: passing `message = none` overwrites whatever message the
matching task carried, erasing the prior progress or error text. -/
theorem update_without_message_erases (tasks : List Task) (taskId : String)
    (st : TaskStatus) (i : Nat) (t : Task) (m₀ : String)
    (hi : tasks[i]? = some t) (hid : t.id = taskId)
    (hmsg : t.message = some m₀) :
    (updateTaskStatus tasks taskId st none)[i]? =
      some { t with status := st, message := none } := by
  rw [updateTaskStatus_getElem?, hi, Option.map_some', updFun_of_eq _ _ _ _ hid]

/-- Witness for `update_without_message_erases`: a task carrying a message
loses it on a message-less update. -/
theorem update_without_message_erases_witness :
    (updateTaskStatus [⟨"2", "y", .running, some "halfway"⟩] "2" .completed none)[0]? =
      some { id := "2", name := "y", status := TaskStatus.completed,
             message := (none : Option String) } :=
  update_without_message_erases [⟨"2", "y", .running, some "halfway"⟩] "2"
    .completed 0 ⟨"2", "y", .running, some "halfway"⟩ "halfway" (by decide) rfl rfl

/-- C2, counterexample: running the spec's own scenario — stages
`[A, B, C]`, `A` succeeds, `B` fails with reason `"network error"` — the
final state has `A = completed`, `C = pending` and the run aborted with
the reason, but `B`'s task message is `"Erro: network error"` (the code
prefixes `'Erro: '` to `error.message`), **not** the bare reason
`"network error"` the claim requires; and the rethrown outcome carries the
reason only, no stage index. -/
theorem run_fail_message_cex :
    runSteps
        ⟨[⟨"1", "A", .pending, none⟩, ⟨"2", "B", .pending, none⟩,
          ⟨"3", "C", .pending, none⟩], ""⟩
        [(⟨"1", "A"⟩, .ok none), (⟨"2", "B"⟩, .fail "network error"),
         (⟨"3", "C"⟩, .ok none)] =
      (⟨[⟨"1", "A", .completed, some "Concluído"⟩,
         ⟨"2", "B", .error, some "Erro: network error"⟩,
         ⟨"3", "C", .pending, none⟩], "B"⟩, .aborted "network error") ∧
    some "Erro: network error" ≠ some "network error" := by
  decide

/-- C2 (amended): for every stage list in which the stages `pre` succeed
and the next stage `stF` fails with reason `r` (stage ids distinct), the
final state is: each `pre` stage's task `completed` with its defaulted
result message, `stF`'s task in status `error` with message
`"Erro: " ++ r` (the reason prefixed by the code's `'Erro: '`), every
other task — in particular the tasks of the never-invoked stages after
the failure — left untouched (hence still `pending` when initially
pending), and the run aborts by rethrowing the failure, whose outcome
carries the reason (but no stage index). -/
theorem run_abort_on_failure (tasks₀ : List Task) (cs : String)
    (pre : List (Step × Option String)) (stF : Step) (r : String)
    (post : List (Step × StageOutcome))
    (hnd : ((pre.map (fun p => p.1.id)) ++ [stF.id]).Nodup) :
    runSteps ⟨tasks₀, cs⟩ (toOkList pre ++ (stF, .fail r) :: post) =
      (⟨tasks₀.map (expectedFail pre stF r), stF.name⟩, .aborted r) :=
  runSteps_fail_after pre tasks₀ cs stF r post hnd

/-- Witness for `run_abort_on_failure`: a concrete three-stage run whose
second stage fails. -/
theorem run_abort_on_failure_witness :
    ((([(⟨"1", "A"⟩, some "done A")] : List (Step × Option String)).map
        (fun p => p.1.id) ++ [(⟨"2", "B"⟩ : Step).id]).Nodup) ∧
    runSteps
        ⟨[⟨"1", "TA", .pending, none⟩, ⟨"2", "TB", .pending, none⟩,
          ⟨"3", "TC", .pending, none⟩], ""⟩
        (toOkList [(⟨"1", "A"⟩, some "done A")] ++
          (⟨"2", "B"⟩, .fail "boom") :: [(⟨"3", "C"⟩, .ok none)]) =
      (⟨([⟨"1", "TA", .pending, none⟩, ⟨"2", "TB", .pending, none⟩,
          ⟨"3", "TC", .pending, none⟩] : List Task).map
            (expectedFail [(⟨"1", "A"⟩, some "done A")] ⟨"2", "B"⟩ "boom"),
         (⟨"2", "B"⟩ : Step).name⟩, .aborted "boom") :=
  ⟨by decide,
   run_abort_on_failure
     [⟨"1", "TA", .pending, none⟩, ⟨"2", "TB", .pending, none⟩,
      ⟨"3", "TC", .pending, none⟩] ""
     [(⟨"1", "A"⟩, some "done A")] ⟨"2", "B"⟩ "boom"
     [(⟨"3", "C"⟩, .ok none)] (by decide)⟩

/-- C5, counterexample: when a stage's operation succeeds supplying the
**empty** message `""`, the claim requires the task message to be that
supplied message, but `result.message || 'Concluído'` treats `""` as
falsy, so the code stores the default `"Concluído"` instead. -/
theorem run_empty_message_cex :
    runSteps ⟨[⟨"1", "A", .pending, none⟩], ""⟩ [(⟨"1", "A"⟩, .ok (some ""))] =
      (⟨[⟨"1", "A", .completed, some "Concluído"⟩], finalLabel⟩, .success) ∧
    some "Concluído" ≠ some "" := by
  decide

/-- C5 (amended): for every run whose stages all succeed (stage ids
distinct), each stage's task is transitioned to `completed` with the
operation's result message as the task message, except that the default
`"Concluído"` is stored when the operation supplies no message **or**
supplies the empty string (JavaScript `||` treats both as falsy); the
runner proceeds through every stage and the run result is success. -/
theorem run_success_messages (tasks₀ : List Task) (cs : String)
    (l : List (Step × Option String))
    (hnd : (l.map (fun p => p.1.id)).Nodup) :
    runSteps ⟨tasks₀, cs⟩ (toOkList l) =
      (⟨tasks₀.map (expectedOk l), finalLabel⟩, .success) :=
  runSteps_toOk l tasks₀ cs hnd

/-- Witness for `run_success_messages`: a two-stage all-success run, one
stage supplying a message and one supplying none. -/
theorem run_success_messages_witness :
    ((([(⟨"1", "A"⟩, some "done A"), (⟨"2", "B"⟩, none)] :
        List (Step × Option String)).map (fun p => p.1.id)).Nodup) ∧
    runSteps ⟨[⟨"1", "TA", .pending, none⟩, ⟨"2", "TB", .pending, none⟩], ""⟩
        (toOkList [(⟨"1", "A"⟩, some "done A"), (⟨"2", "B"⟩, none)]) =
      (⟨([⟨"1", "TA", .pending, none⟩, ⟨"2", "TB", .pending, none⟩] :
          List Task).map
            (expectedOk [(⟨"1", "A"⟩, some "done A"), (⟨"2", "B"⟩, none)]),
         finalLabel⟩, .success) :=
  ⟨by decide,
   run_success_messages
     [⟨"1", "TA", .pending, none⟩, ⟨"2", "TB", .pending, none⟩] ""
     [(⟨"1", "A"⟩, some "done A"), (⟨"2", "B"⟩, none)] (by decide)⟩

/-- C6: for every stage whose operation is actually invoked, the state in
force at the moment of invocation — after `setCurrentStep(step.name)` and
the `running` update, before the outcome is recorded — carries the
stage's human-readable name as the current step label; that state still
shows the stage's task as `running` (no outcome recorded yet) and is one
of the observable states of the run's trace, strictly preceding the state
in which the outcome lands. -/
theorem label_before_invocation (s : PipelineState)
    (l : List (Step × StageOutcome)) (st : Step) (σ : PipelineState)
    (h : (st, σ) ∈ invocationStates s l) :
    σ.currentStep = st.name ∧
    (∀ t ∈ σ.tasks, t.id = st.id → t.status = .running) ∧
    σ ∈ s :: runStepsTrace s l :=
  invocation_label l s st σ h

/-- Witness for `label_before_invocation`: the single stage of a concrete
one-stage run. -/
theorem label_before_invocation_witness :
    (((⟨"1", "A"⟩ : Step),
      (⟨[⟨"1", "T1", .running, some "A"⟩], "A"⟩ : PipelineState)) ∈
        invocationStates ⟨[⟨"1", "T1", .pending, none⟩], "init"⟩
          [(⟨"1", "A"⟩, .ok none)]) ∧
    ((⟨[⟨"1", "T1", .running, some "A"⟩], "A"⟩ : PipelineState).currentStep =
        (⟨"1", "A"⟩ : Step).name ∧
      (∀ t ∈ (⟨[⟨"1", "T1", .running, some "A"⟩], "A"⟩ : PipelineState).tasks,
        t.id = (⟨"1", "A"⟩ : Step).id → t.status = .running) ∧
      (⟨[⟨"1", "T1", .running, some "A"⟩], "A"⟩ : PipelineState) ∈
        (⟨[⟨"1", "T1", .pending, none⟩], "init"⟩ : PipelineState) ::
          runStepsTrace ⟨[⟨"1", "T1", .pending, none⟩], "init"⟩
            [(⟨"1", "A"⟩, .ok none)]) :=
  ⟨by decide,
   label_before_invocation ⟨[⟨"1", "T1", .pending, none⟩], "init"⟩
     [(⟨"1", "A"⟩, .ok none)] ⟨"1", "A"⟩
     ⟨[⟨"1", "T1", .running, some "A"⟩], "A"⟩ (by decide)⟩

theorem map_fst_zip_sublist {β : Type} (l : List Step) (l' : List β) :
    ((l.zip l').map (fun p => p.1.id)).Sublist (l.map (fun st => st.id)) := by
  induction l generalizing l' with
  | nil => simp
  | cons a l ih =>
    cases l' with
    | nil => simp
    | cons b l' =>
      simpa using List.Sublist.cons₂ a.id (ih l')

theorem simulateProcessingTrace_eq (l : List Step) :
    ∀ s : PipelineState,
    simulateProcessingTrace s l =
      runStepsTrace s (l.map (fun st => (st, StageOutcome.ok none))) := by
  induction l with
  | nil => intro s; rfl
  | cons st l ih =>
    intro s
    simp only [simulateProcessingTrace, runStepsTrace, List.map_cons]
    rw [ih]
    rfl

theorem afterUploadState_tasks (caseId : String) :
    (afterUploadState caseId).tasks =
      [⟨"0", "Upload de arquivos", .completed,
        some ("Arquivos enviados! Case ID: " ++ caseId)⟩,
       ⟨"1", "Transcrição de áudio", .pending, none⟩,
       ⟨"2", "Processamento com Gemini", .pending, none⟩,
       ⟨"3", "Geração da sentença", .pending, none⟩] := by
  simp [afterUploadState, updateTaskStatus, part1InitialTasks, updFun]

/-- C4: within one run the aggregated percentage is monotonically
non-decreasing across the successive states produced by the run's task
updates — both for `part_001`'s `processWithAPI` (entered after the
upload task completed, for **every** possible sequence of stage
outcomes, including failures) and for `page.tsx`'s concrete
`simulateProcessing` run. -/
theorem progress_monotone_runs (caseId : String) (outcomes : List StageOutcome) :
    List.Chain' (fun a b => progressPercent a.tasks ≤ progressPercent b.tasks)
      (afterUploadState caseId ::
        runStepsTrace (afterUploadState caseId) (part1Steps.zip outcomes)) ∧
    List.Chain' (fun a b => progressPercent a.tasks ≤ progressPercent b.tasks)
      (pageInitialState :: simulateProcessingTrace pageInitialState pageSteps) := by
  constructor
  · apply trace_mono
    · exact List.Nodup.sublist (map_fst_zip_sublist part1Steps outcomes) (by decide)
    · intro t ht hmem
      have hmem' : t.id ∈ part1Steps.map (fun st => st.id) :=
        (map_fst_zip_sublist part1Steps outcomes).subset hmem
      rw [afterUploadState_tasks] at ht
      have hids : part1Steps.map (fun st => st.id) = ["1", "2", "3"] := rfl
      rw [hids] at hmem'
      simp only [List.mem_cons, List.not_mem_nil, or_false] at ht
      rcases ht with rfl | rfl | rfl | rfl
      · simp at hmem'
      · simp
      · simp
      · simp
  · rw [simulateProcessingTrace_eq]
    apply trace_mono
    · simp only [List.map_map]
      decide
    · intro t ht _
      have hp : ∀ x ∈ pageInitialState.tasks, x.status = TaskStatus.pending := by
        decide
      rw [hp t ht]
      simp

theorem roleOk_applyEvent (s : UZState) (e : UZEvent) (h : roleOk s = true) :
    roleOk (applyEvent s e).1 = true := by
  obtain ⟨p, a⟩ := s
  cases e with
  | drop f r nid =>
      cases r <;>
        simp_all [applyEvent, handleDrop, roleOk]
  | removeProcesso => simp_all [applyEvent, removeProcessoFile, roleOk]
  | removeAudiencia => simp_all [applyEvent, removeAudienciaFile, roleOk]

theorem roleOk_runEvents (es : List UZEvent) :
    ∀ s : UZState, roleOk s = true → roleOk (runEvents s es) = true := by
  induction es with
  | nil => intro s h; exact h
  | cons e es ih =>
      intro s h
      show roleOk (runEvents (applyEvent s e).1 es) = true
      exact ih _ (roleOk_applyEvent s e h)

theorem count_emitted_le_one (s : UZState) (e : UZEvent) (r' : Role)
    (h : roleOk s = true) :
    ((applyEvent s e).2.countP (fun u => u.type == r')) ≤ 1 := by
  obtain ⟨p, a⟩ := s
  cases e with
  | drop f r nid =>
      cases r <;> cases p <;> cases a <;> cases r' <;>
        simp_all [applyEvent, handleDrop, roleOk, Option.toList,
          List.countP_cons, List.countP_nil]
  | removeProcesso =>
      cases p <;> cases a <;> cases r' <;>
        simp_all [applyEvent, removeProcessoFile, roleOk, Option.toList,
          List.countP_cons, List.countP_nil]
  | removeAudiencia =>
      cases p <;> cases a <;> cases r' <;>
        simp_all [applyEvent, removeAudienciaFile, roleOk, Option.toList,
          List.countP_cons, List.countP_nil]

/-- C7: after any sequence of upload-zone events, each slot retains only a
file of its own role (so the retained set holds at most one file per
role); every list emitted to `onFilesChange` contains at most one file of
each role; and a later drop of role `r` replaces the retained file of
role `r` with the new file while leaving the other role's slot unchanged. -/
theorem upload_one_per_role (es : List UZEvent) (e : UZEvent) (r r' : Role)
    (f nid : String) :
    roleOk (runEvents initUZ es) = true ∧
    ((applyEvent (runEvents initUZ es) e).2.countP (fun u => u.type == r')) ≤ 1 ∧
    slot (handleDrop (runEvents initUZ es) f r nid).1 r = some ⟨f, r, nid⟩ ∧
    slot (handleDrop (runEvents initUZ es) f r nid).1 (otherRole r) =
      slot (runEvents initUZ es) (otherRole r) := by
  have hro : roleOk (runEvents initUZ es) = true := roleOk_runEvents es initUZ rfl
  refine ⟨hro, count_emitted_le_one _ e r' hro, ?_, ?_⟩
  · cases r <;> rfl
  · cases r <;> rfl

end Sentencas
